/-
Verification of the recentrifuge core: taxonomy graph construction
(src/recentrifuge/taxonomy.py) and LMAT classifier-output ingestion
(src/recentrifuge/lmat.py), shallowly embedded in Lean 4.

Python dicts are modelled as association lists with first-match lookup and
an in-place overwrite/append update (`dput`) reproducing dict assignment;
TaxIds are modelled as Nat where they are opaque identifiers.
-/
import Mathlib

namespace Recentrifuge

/-- Python dict assignment `m[k] = v`: overwrite the binding in place if the
key is present, else append a new binding at the end (insertion order). -/
def dictPut {α β : Type} [BEq α] (m : List (α × β)) (k : α) (v : β) :
    List (α × β) :=
  match m with
  | [] => [(k, v)]
  | (k', v') :: t => if k' == k then (k, v) :: t else (k', v') :: dictPut t k v

theorem dictPut_lookup_eq {α β : Type} [BEq α] [LawfulBEq α]
    (m : List (α × β)) (k : α) (v : β) : (dictPut m k v).lookup k = some v := by
  induction m with
  | nil => simp [dictPut, List.lookup]
  | cons hd t ih =>
    obtain ⟨k', v'⟩ := hd
    by_cases h : k' = k
    · simp [dictPut, h, List.lookup]
    · have hb1 : (k' == k) = false := by
        simp only [beq_eq_false_iff_ne]; exact h
      have hb2 : (k == k') = false := by
        simp only [beq_eq_false_iff_ne]; exact fun hh => h hh.symm
      simp [dictPut, hb1, List.lookup, hb2, ih]

theorem dictPut_lookup_ne {α β : Type} [BEq α] [LawfulBEq α]
    (m : List (α × β)) (k : α) (v : β) (k' : α) (h : k' ≠ k) :
    (dictPut m k v).lookup k' = m.lookup k' := by
  induction m with
  | nil =>
    have hb : (k' == k) = false := by simp only [beq_eq_false_iff_ne]; exact h
    simp [dictPut, List.lookup, hb]
  | cons hd t ih =>
    obtain ⟨a, b⟩ := hd
    by_cases ha : a = k
    · have hb1 : (a == k) = true := by simp [ha]
      have hb : (k' == a) = false := by
        simp only [beq_eq_false_iff_ne]; rw [ha]; exact h
      have hb' : (k' == k) = false := by
        simp only [beq_eq_false_iff_ne]; exact h
      simp [dictPut, hb1, List.lookup, hb, hb']
    · have hb1 : (a == k) = false := by
        simp only [beq_eq_false_iff_ne]; exact ha
      simp only [dictPut, hb1, Bool.false_eq_true, if_false, List.lookup]
      by_cases hb : k' = a
      · simp [hb]
      · have hb' : (k' == a) = false := by
          simp only [beq_eq_false_iff_ne]; exact hb
        simp [hb', ih]

/-! ## Taxonomy.build_children (taxonomy.py lines 171-181)

```python
self.children = Children({})
for tid in self.parents:
    if self.parents[tid] not in self.children:
        self.children[self.parents[tid]] = {}
    self.children[self.parents[tid]][tid] = 0
```
The inner dicts `children[p]` are used as sets of child taxids; we model
them as lists of keys in insertion order (`children[p][tid] = 0` leaves the
key set unchanged when tid is already a key). -/

/-- One iteration of the build_children loop body for entry (tid, parent). -/
def addChild (ch : List (Nat × List Nat)) (p tid : Nat) :
    List (Nat × List Nat) :=
  let cs := (ch.lookup p).getD []
  dictPut ch p (if cs.contains tid then cs else cs ++ [tid])

/-- `Taxonomy.build_children`: fold the loop body over the parents dict. -/
def build_children (ps : List (Nat × Nat)) : List (Nat × List Nat) :=
  ps.foldl (fun ch pr => addChild ch pr.2 pr.1) []

/-- The child list stored for parent p (empty when p has no entry). -/
def childrenOf (ch : List (Nat × List Nat)) (p : Nat) : List Nat :=
  (ch.lookup p).getD []

theorem addChild_childrenOf (ch : List (Nat × List Nat)) (p tid q : Nat) :
    childrenOf (addChild ch p tid) q =
      if q = p then
        (if (childrenOf ch p).contains tid then childrenOf ch p
         else childrenOf ch p ++ [tid])
      else childrenOf ch q := by
  unfold addChild childrenOf
  by_cases h : q = p
  · subst h; simp [dictPut_lookup_eq]
  · simp [dictPut_lookup_ne _ _ _ _ h, h]

theorem lookup_eq_none_of_not_mem_keys (l : List (Nat × Nat)) (c : Nat)
    (h : c ∉ l.map Prod.fst) : l.lookup c = none := by
  induction l with
  | nil => simp [List.lookup]
  | cons hd t ih =>
    obtain ⟨a, b⟩ := hd
    simp only [List.map_cons, List.mem_cons, not_or] at h
    have hb : (c == a) = false := by
      simp only [beq_eq_false_iff_ne]; exact h.1
    simp [List.lookup, hb, ih h.2]

theorem lookup_append_left (l1 l2 : List (Nat × Nat)) (c : Nat) (v : Nat)
    (h : l1.lookup c = some v) : (l1 ++ l2).lookup c = some v := by
  induction l1 with
  | nil => simp [List.lookup] at h
  | cons hd t ih =>
    obtain ⟨a, b⟩ := hd
    by_cases hc : c = a
    · subst hc
      simp [List.lookup] at h ⊢
      exact h
    · have hb : (c == a) = false := by
        simp only [beq_eq_false_iff_ne]; exact hc
      simp only [List.cons_append, List.lookup, hb] at h ⊢
      exact ih h

theorem lookup_append_right (l1 l2 : List (Nat × Nat)) (c : Nat)
    (h : l1.lookup c = none) : (l1 ++ l2).lookup c = l2.lookup c := by
  induction l1 with
  | nil => simp
  | cons hd t ih =>
    obtain ⟨a, b⟩ := hd
    by_cases hc : c = a
    · subst hc
      simp [List.lookup] at h
    · have hb : (c == a) = false := by
        simp only [beq_eq_false_iff_ne]; exact hc
      simp only [List.cons_append, List.lookup, hb] at h ⊢
      exact ih h

/-- Invariant of the build_children loop: the children dict built from the
processed prefix of the parents dict holds each (child, parent) edge of
that prefix exactly once and nothing else. -/
def ChildInv (ps : List (Nat × Nat)) (ch : List (Nat × List Nat)) : Prop :=
  ∀ p c, (childrenOf ch p).count c = if ps.lookup c = some p then 1 else 0

theorem lookup_single_eq (k v : Nat) :
    ([(k, v)] : List (Nat × Nat)).lookup k = some v := by
  simp [List.lookup]

theorem lookup_single_ne (k v c : Nat) (h : c ≠ k) :
    ([(k, v)] : List (Nat × Nat)).lookup c = none := by
  have hb : (c == k) = false := by simp only [beq_eq_false_iff_ne]; exact h
  simp [List.lookup, hb]

theorem childInv_step (done : List (Nat × Nat)) (ch : List (Nat × List Nat))
    (tid par : Nat) (hinv : ChildInv done ch) (hnew : done.lookup tid = none) :
    ChildInv (done ++ [(tid, par)]) (addChild ch par tid) := by
  intro p c
  have hcount0 : (childrenOf ch par).count tid = 0 := by
    rw [hinv par tid, hnew]; simp
  have hnotmem : tid ∉ childrenOf ch par := List.count_eq_zero.mp hcount0
  have hcont : (childrenOf ch par).contains tid = false := by
    simp [List.contains, hnotmem]
  rw [addChild_childrenOf]
  by_cases hp : p = par
  · rw [if_pos hp]
    have hif : (if (childrenOf ch par).contains tid then childrenOf ch par
                else childrenOf ch par ++ [tid])
              = childrenOf ch par ++ [tid] := by
      rw [hcont]; simp
    rw [hif, List.count_append]
    by_cases hc : c = tid
    · rw [hc, hcount0, List.count_singleton_self]
      have hl : (done ++ [(tid, par)]).lookup tid = some par := by
        rw [lookup_append_right _ _ _ hnew, lookup_single_eq]
      rw [hl, hp]
      simp
    · have hc1 : ([tid] : List Nat).count c = 0 := by
        rw [List.count_singleton']
        simp only [ite_eq_right_iff]
        intro hh; exact absurd hh.symm hc
      rw [hc1, Nat.add_zero, hinv par c]
      rcases hdl : done.lookup c with _ | v
      · rw [lookup_append_right _ _ _ hdl, lookup_single_ne _ _ _ hc]
        simp
      · rw [lookup_append_left _ _ _ _ hdl, hp]
  · rw [if_neg hp, hinv p c]
    rcases hdl : done.lookup c with _ | v
    · rw [lookup_append_right _ _ _ hdl]
      by_cases hc : c = tid
      · rw [hc, lookup_single_eq]
        have h2 : ¬ (some par : Option Nat) = some p := by
          simp only [Option.some_inj]; exact fun hh => hp hh.symm
        simp [h2]
      · rw [lookup_single_ne _ _ _ hc]
    · rw [lookup_append_left _ _ _ _ hdl]

theorem childInv_fold (rest : List (Nat × Nat)) :
    ∀ (done : List (Nat × Nat)) (ch : List (Nat × List Nat)),
    ((done ++ rest).map Prod.fst).Nodup → ChildInv done ch →
    ChildInv (done ++ rest)
      (rest.foldl (fun ch pr => addChild ch pr.2 pr.1) ch) := by
  induction rest with
  | nil => intro done ch _ hinv; simpa using hinv
  | cons hd t ih =>
    intro done ch hnd hinv
    obtain ⟨tid, par⟩ := hd
    have hnew : done.lookup tid = none := by
      apply lookup_eq_none_of_not_mem_keys
      intro hm
      have : tid ∈ (done ++ (tid, par) :: t).map Prod.fst := by
        simp only [List.map_append, List.mem_append]
        exact Or.inl hm
      have hnd' := hnd
      rw [List.map_append, List.nodup_append] at hnd'
      exact hnd'.2.2 hm (by simp)
    have hstep := childInv_step done ch tid par hinv hnew
    have hre : done ++ (tid, par) :: t = (done ++ [(tid, par)]) ++ t := by
      simp
    rw [hre] at hnd ⊢
    exact ih (done ++ [(tid, par)]) (addChild ch par tid) hnd hstep

/-- C2: for every ParentMap (a dict, so keys are distinct), the children
index built by `Taxonomy.build_children` is the exact inverse relation of
the parents dict: a child c is listed under parent p exactly once when
parents[c] = p, and is not listed under p at all otherwise; membership in
the child index is equivalent to the ParentMap edge. -/
theorem build_children_exact_inverse (ps : List (Nat × Nat))
    (hnd : (ps.map Prod.fst).Nodup) (p c : Nat) :
    (childrenOf (build_children ps) p).count c
        = (if ps.lookup c = some p then 1 else 0)
    ∧ (c ∈ childrenOf (build_children ps) p ↔ ps.lookup c = some p) := by
  have hbase : ChildInv [] [] := by
    intro p c; simp [childrenOf, List.lookup]
  have h := childInv_fold ps [] [] (by simpa using hnd) hbase
  have hc := h p c
  simp only [List.nil_append] at hc
  refine ⟨hc, ?_⟩
  constructor
  · intro hm
    by_contra hne
    rw [if_neg hne] at hc
    exact absurd (List.count_eq_zero.mp hc) (not_not.mpr hm)
  · intro he
    rw [if_pos he] at hc
    have hpos : 0 < (childrenOf (build_children ps) p).count c := by
      unfold build_children; rw [hc]; exact Nat.one_pos
    exact List.count_pos_iff.mp hpos

/-- Witness for C2 at a concrete ParentMap {2 ↦ 1, 3 ↦ 1, 4 ↦ 2}. -/
theorem build_children_exact_inverse_witness :
    ([( 2, 1), (3, 1), (4, 2)].map (Prod.fst (α := Nat) (β := Nat))).Nodup
    ∧ (childrenOf (build_children [(2, 1), (3, 1), (4, 2)]) 1).count 3
        = (if ([(2, 1), (3, 1), (4, 2)] : List (Nat × Nat)).lookup 3
             = some 1 then 1 else 0)
    ∧ (3 ∈ childrenOf (build_children [(2, 1), (3, 1), (4, 2)]) 1
        ↔ ([(2, 1), (3, 1), (4, 2)] : List (Nat × Nat)).lookup 3 = some 1) :=
  ⟨by decide,
   build_children_exact_inverse [(2, 1), (3, 1), (4, 2)] (by decide) 1 3⟩

/-! ## Taxonomy.read_nodes (taxonomy.py lines 59-85)

```python
_tid, _parent, _rank, *_ = line.split('\t|\t')
tid = TaxId(_tid); parent = TaxId(_parent)
if self.collapse and parent == CELLULAR_ORGANISMS:
    self.parents[tid] = ROOT
else:
    self.parents[tid] = parent
try:
    rank = Rank[_rank.upper().replace(" ", "_")]
except KeyError:
    raise UnsupportedTaxLevelError(f'Unknown tax level {_rank}')
self.ranks[tid] = rank
```
-/

/-- Modelled from the spec: `ROOT` (config.py, not under src/), the sentinel
taxon terminating every ancestor walk. -/
def ROOT : Nat := 1

/-- Modelled from the spec: `CELLULAR_ORGANISMS` (config.py, not under
src/), the designated high-level clade sentinel flattened into ROOT when
collapse mode is on. -/
def CELLULAR_ORGANISMS : Nat := 131567

/-- Python `str.upper()` on the ASCII rank strings. -/
def pyUpper (s : String) : String := String.mk (s.data.map Char.toUpper)

/-- Python `str.replace(" ", "_")` (the pattern is a single character, so
the replacement is a character-wise map). -/
def replaceSpace (s : String) : String :=
  String.mk (s.data.map (fun c => if c = ' ' then '_' else c))

/-- Modelled from the spec: the closed fixed `Rank` vocabulary (rank.py is
not under src/). §3 calls it a closed vocabulary of taxonomic levels
(species, genus, …, unclassified) and §8 names the entry SUPERCLASS;
member names are uppercase with underscores joining multi-word levels. -/
def rankVocab : List String :=
  ["DOMAIN", "SUPERKINGDOM", "KINGDOM", "SUBKINGDOM", "SUPERPHYLUM",
   "PHYLUM", "SUBPHYLUM", "SUPERCLASS", "CLASS", "SUBCLASS",
   "SUPERORDER", "ORDER", "SUBORDER", "SUPERFAMILY", "FAMILY",
   "SUBFAMILY", "TRIBE", "GENUS", "SUBGENUS", "SPECIES_GROUP",
   "SPECIES", "SUBSPECIES", "VARIETAS", "FORMA", "NO_RANK",
   "UNCLASSIFIED"]

/-- `Rank[_rank.upper().replace(" ", "_")]`: the enum name lookup; a
KeyError (name not in the closed vocabulary) is the fatal
UnsupportedTaxLevelError path. -/
def rankLookup (s : String) : Option String :=
  let key := replaceSpace (pyUpper s)
  if rankVocab.contains key then some key else none

structure NodesState where
  parents : List (Nat × Nat)
  ranks : List (Nat × String)

/-- Body of the read_nodes loop for one parsed row (tid, parent, rank
string); the fatal UnsupportedTaxLevelError is the error branch. -/
def processNodeRow (collapse : Bool) (st : NodesState) (tid parent : Nat)
    (rankStr : String) : Except String NodesState :=
  let parents' :=
    if collapse && (parent == CELLULAR_ORGANISMS) then
      dictPut st.parents tid ROOT
    else
      dictPut st.parents tid parent
  match rankLookup rankStr with
  | none => .error ("Unknown tax level " ++ rankStr)
  | some rk => .ok { parents := parents', ranks := dictPut st.ranks tid rk }

/-- C8: in the read_nodes row processing, when collapse mode is on a row
whose raw parent is the clade sentinel CELLULAR_ORGANISMS gets effective
parent ROOT in the parents dict; when collapse mode is off the raw parent
is stored unchanged, whatever it is. -/
theorem read_nodes_collapse (collapse : Bool) (st : NodesState)
    (tid parent : Nat) (rankStr : String) (st' : NodesState)
    (h : processNodeRow collapse st tid parent rankStr = .ok st') :
    (collapse = true → parent = CELLULAR_ORGANISMS →
        st'.parents.lookup tid = some ROOT)
    ∧ (collapse = false → st'.parents.lookup tid = some parent) := by
  unfold processNodeRow at h
  rcases hrk : rankLookup rankStr with _ | rk
  · rw [hrk] at h; exact absurd h (by simp)
  · rw [hrk] at h
    simp only [Except.ok.injEq] at h
    constructor
    · intro hc hp
      have hcond : (collapse && (parent == CELLULAR_ORGANISMS)) = true := by
        rw [hc, hp]; simp
      rw [← h]
      simp only [hcond, if_true]
      exact dictPut_lookup_eq _ _ _
    · intro hc
      have hcond : (collapse && (parent == CELLULAR_ORGANISMS)) = false := by
        rw [hc]; simp
      rw [← h]
      simp only [hcond, Bool.false_eq_true, if_false]
      exact dictPut_lookup_eq _ _ _

/-- Witness for C8: collapse on with the sentinel parent stores ROOT, at a
concrete row. -/
theorem read_nodes_collapse_witness :
    processNodeRow true ⟨[], []⟩ 9606 CELLULAR_ORGANISMS "species"
      = .ok ⟨[(9606, ROOT)], [(9606, "SPECIES")]⟩
    ∧ ([(9606, ROOT)] : List (Nat × Nat)).lookup 9606 = some ROOT := by
  constructor
  · rfl
  · exact (read_nodes_collapse true ⟨[], []⟩ 9606 CELLULAR_ORGANISMS
      "species" ⟨[(9606, ROOT)], [(9606, "SPECIES")]⟩ rfl).1 rfl rfl

/-- C5 counterexample: the claim says the rank string "superclass "
(trailing space) normalizes successfully to SUPERCLASS, but the code
uppercases and then replaces every space by an underscore, so the key
becomes "SUPERCLASS_", which is not in the vocabulary: the lookup fails
(fatal UnsupportedTaxLevelError), and the whole row is rejected. -/
theorem rank_trailing_space_counterexample :
    replaceSpace (pyUpper "superclass ") = "SUPERCLASS_"
    ∧ rankLookup "superclass " = none
    ∧ processNodeRow true ⟨[], []⟩ 5 131567 "superclass "
        = .error "Unknown tax level superclass " := by
  refine ⟨rfl, rfl, rfl⟩

/-- C5 as amended: mixed case normalizes ("SuperClass" → SUPERCLASS) and
internal spaces become underscores ("species group" → SPECIES_GROUP), but
a trailing space becomes a trailing underscore, so "superclass " does not
normalize and is a fatal unrecognized-rank error, exactly like any rank
string whose normalized form is outside the vocabulary: a node row is
accepted iff the normalized rank string is in the vocabulary. -/
theorem read_nodes_rank_normalization :
    rankLookup "SuperClass" = some "SUPERCLASS"
    ∧ rankLookup "species group" = some "SPECIES_GROUP"
    ∧ rankLookup "superclass " = none
    ∧ ∀ (collapse : Bool) (st : NodesState) (tid parent : Nat) (s : String),
        (∃ msg, processNodeRow collapse st tid parent s = .error msg)
          ↔ rankLookup s = none := by
  refine ⟨rfl, rfl, rfl, ?_⟩
  intro collapse st tid parent s
  constructor
  · rintro ⟨msg, hmsg⟩
    unfold processNodeRow at hmsg
    rcases hrk : rankLookup s with _ | rk
    · rfl
    · rw [hrk] at hmsg; exact absurd hmsg (by simp)
  · intro hrk
    refine ⟨"Unknown tax level " ++ s, ?_⟩
    unfold processNodeRow
    rw [hrk]

/-! ## Taxonomy.read_names (taxonomy.py lines 87-101)

```python
for line in file:
    if 'scientific name' in line:
        tid, scientific_name, *_ = line.split('\t|\t')
        self.names[TaxId(tid)] = scientific_name
```
The guard is a substring test on the WHOLE raw line, not an equality test
on the class-label field. TaxIds here are the raw string fields. -/

/-- Python substring membership on character lists. -/
def containsSub (sub : List Char) : List Char → Bool
  | [] => sub.isEmpty
  | c :: t => sub.isPrefixOf (c :: t) || containsSub sub t

/-- Python `sub in line` for strings. -/
def pyContains (sub line : String) : Bool := containsSub sub.data line.data

/-- A raw names-source line from its '\t|\t'-delimited fields (the inverse
of the `line.split('\t|\t')` the code performs; field content contains no
delimiter occurrence, as in the NCBI dump format). -/
def rawLine (fields : List String) : String :=
  String.intercalate "\t|\t" fields

/-- Body of the read_names loop for one line, given as its fields; the
substring guard is evaluated on the reconstructed raw line exactly as the
code evaluates it on the line before splitting. The error branch is the
ValueError Python raises when a guarded line has fewer than two fields. -/
def processNameLine (names : List (String × String))
    (fields : List String) : Except String (List (String × String)) :=
  if pyContains "scientific name" (rawLine fields) then
    match fields with
    | tid :: nm :: _ => .ok (dictPut names tid nm)
    | _ => .error "not enough values to unpack"
  else
    .ok names

/-- C6 counterexample: a row whose class-label field (4th field) is
"synonym" — not "scientific name" — is still consumed, because the code
tests the substring against the whole line and here the name field
contains it: NameMap gains an entry, contradicting the claim that rows of
any other name class leave NameMap unchanged. -/
theorem read_names_class_counterexample :
    (["7", "the scientific name fanzine", "", "synonym"].getD 3 "")
      = "synonym"
    ∧ processNameLine [] ["7", "the scientific name fanzine", "", "synonym"]
      = .ok [("7", "the scientific name fanzine")] := by
  refine ⟨rfl, ?_⟩
  rfl

/-- C6 as amended: read_names consumes exactly the lines that contain the
substring "scientific name" anywhere in the raw line (in particular every
row whose class-label field is "scientific name", since that label is part
of the line); a consumed line sets NameMap[first field] = second field and
leaves every other key unchanged, and a line without the substring leaves
NameMap wholly unchanged. -/
theorem read_names_consumes_substring_lines
    (names : List (String × String)) (fields : List String) :
    (pyContains "scientific name" (rawLine fields) = false →
      processNameLine names fields = .ok names)
    ∧ (∀ tid nm rest, pyContains "scientific name" (rawLine fields) = true →
        fields = tid :: nm :: rest →
        ∃ names', processNameLine names fields = .ok names'
          ∧ names'.lookup tid = some nm
          ∧ ∀ k, k ≠ tid → names'.lookup k = names.lookup k) := by
  constructor
  · intro h
    unfold processNameLine
    rw [h]
    simp
  · intro tid nm rest h hsplit
    refine ⟨dictPut names tid nm, ?_, ?_, ?_⟩
    · unfold processNameLine
      rw [h, hsplit]
      simp
    · exact dictPut_lookup_eq _ _ _
    · intro k hk
      exact dictPut_lookup_ne _ _ _ _ hk

/-- Witness for the amended C6 at a genuine scientific-name row and at a
row without the substring. -/
theorem read_names_consumes_substring_lines_witness :
    (pyContains "scientific name"
        (rawLine ["9606", "Homo sapiens", "", "scientific name"]) = true)
    ∧ (∃ names',
        processNameLine [] ["9606", "Homo sapiens", "", "scientific name"]
          = .ok names'
        ∧ names'.lookup "9606" = some "Homo sapiens"
        ∧ ∀ k, k ≠ "9606" → names'.lookup k
            = ([] : List (String × String)).lookup k)
    ∧ (pyContains "scientific name"
        (rawLine ["9606", "Homo sapiens", "", "authority"]) = false)
    ∧ processNameLine [] ["9606", "Homo sapiens", "", "authority"]
        = .ok [] := by
  refine ⟨by decide, ?_, by decide, ?_⟩
  · exact (read_names_consumes_substring_lines []
      ["9606", "Homo sapiens", "", "scientific name"]).2
      "9606" "Homo sapiens" ["", "scientific name"] (by decide) rfl
  · exact (read_names_consumes_substring_lines []
      ["9606", "Homo sapiens", "", "authority"]).1 (by decide)

/-! ## Taxonomy.read_plasmids (taxonomy.py lines 103-168)

```python
_tid, _parent, *_, last = line.rstrip('\n').split('\t')
last = last.split(r'|')[-1]
tid = TaxId(_tid); parent = TaxId(_parent)
if tid in self.parents:
    match['ERR1'] += 1; continue
elif tid == parent:
    match['ERR2'] += 1; continue
else:
    self.parents[tid] = parent
try:
    name = pattern1.search(last).group(1)
    name = 'Plasmid ' + name.strip(r'"').strip(',')
except AttributeError:
    try:
        name = pattern2.search(last).group(1).strip()
        name = 'Plasmid ' + name
    except AttributeError:
        name = 'Plasmid ' + tid; match['FAIL'] += 1
    else:
        match['PAT2'] += 1
else:
    match['PAT1'] += 1
self.names[tid] = name
```
The two regular expressions are modelled as abstract functions
String → Option String (the group(1) extraction, none when the search
finds no match); every theorem below holds for all such functions. -/

/-- Python `s.split(sep)` for a single-character separator. -/
def splitChar (sep : Char) : List Char → List (List Char)
  | [] => [[]]
  | c :: t =>
    if c = sep then [] :: splitChar sep t
    else
      match splitChar sep t with
      | [] => [[c]]
      | h :: r => (c :: h) :: r

/-- `last.split('|')[-1]`: the final '|'-separated segment. -/
def lastSegment (s : String) : String :=
  String.mk ((splitChar '|' s.data).getLastD [])

/-- Python `s.strip(c)` for a one-character strip set. -/
def stripChar (ch : Char) (s : String) : String :=
  String.mk
    (((s.data.dropWhile (· = ch)).reverse.dropWhile (· = ch)).reverse)

/-- Python `s.strip()` (whitespace strip). -/
def pyStrip (s : String) : String :=
  String.mk
    (((s.data.dropWhile Char.isWhitespace).reverse.dropWhile
        Char.isWhitespace).reverse)

structure PlasmidState where
  parents : List (Nat × Nat)
  names : List (Nat × String)
  err1 : Nat
  err2 : Nat
  pat1 : Nat
  pat2 : Nat
  failCnt : Nat

/-- Body of the read_plasmids loop for one row, parametrized by the two
pattern matchers (`pattern1.search(..).group(1)` and
`pattern2.search(..).group(1)` as total functions returning none when the
search fails). -/
def processPlasmidRow (pat1f pat2f : String → Option String)
    (st : PlasmidState) (tid parent : Nat) (lastRaw : String) :
    PlasmidState :=
  let last := lastSegment lastRaw
  if (st.parents.lookup tid).isSome then
    { st with err1 := st.err1 + 1 }
  else if tid == parent then
    { st with err2 := st.err2 + 1 }
  else
    let parents' := dictPut st.parents tid parent
    match pat1f last with
    | some g =>
      { st with
        parents := parents'
        names := dictPut st.names tid
          ("Plasmid " ++ stripChar ',' (stripChar '"' g))
        pat1 := st.pat1 + 1 }
    | none =>
      match pat2f last with
      | some g =>
        { st with
          parents := parents'
          names := dictPut st.names tid ("Plasmid " ++ pyStrip g)
          pat2 := st.pat2 + 1 }
      | none =>
        { st with
          parents := parents'
          names := dictPut st.names tid ("Plasmid " ++ toString tid)
          failCnt := st.failCnt + 1 }

/-- C4: a plasmid row whose taxid is already in the parents dict is
rejected without aborting — the parents and names dicts are unchanged
(hence the pre-existing parent entry is kept) and only the collision
counter ERR1 increments, by exactly 1; a row whose taxid equals its
declared parent is likewise rejected with only ERR2 incremented and no
parents entry created. -/
theorem read_plasmids_rejections (pat1f pat2f : String → Option String)
    (st : PlasmidState) (tid parent : Nat) (lastRaw : String) :
    (∀ q, st.parents.lookup tid = some q →
      processPlasmidRow pat1f pat2f st tid parent lastRaw
        = { st with err1 := st.err1 + 1 }
      ∧ (processPlasmidRow pat1f pat2f st tid parent lastRaw).parents.lookup
          tid = some q)
    ∧ (st.parents.lookup tid = none → tid = parent →
      processPlasmidRow pat1f pat2f st tid parent lastRaw
        = { st with err2 := st.err2 + 1 }
      ∧ (processPlasmidRow pat1f pat2f st tid parent lastRaw).parents.lookup
          tid = none) := by
  constructor
  · intro q hq
    have hsome : (st.parents.lookup tid).isSome = true := by
      rw [hq]; rfl
    have heq : processPlasmidRow pat1f pat2f st tid parent lastRaw
        = { st with err1 := st.err1 + 1 } := by
      unfold processPlasmidRow
      rw [hsome]
      simp
    exact ⟨heq, by rw [heq]; exact hq⟩
  · intro hn hp
    have hsome : (st.parents.lookup tid).isSome = false := by
      rw [hn]; rfl
    have hb : (tid == parent) = true := by
      simp only [beq_iff_eq]; exact hp
    have heq : processPlasmidRow pat1f pat2f st tid parent lastRaw
        = { st with err2 := st.err2 + 1 } := by
      unfold processPlasmidRow
      rw [hsome, hb]
      simp
    exact ⟨heq, by rw [heq]; exact hn⟩

/-- Witness for C4: collision row (taxid 100 already mapped to 10, new
parent 20; parents[100] stays 10, ERR1 becomes 1) and self-parent row
(taxid 55, parent 55 on an empty state; no entry for 55 is created, ERR2
becomes 1). -/
theorem read_plasmids_rejections_witness :
    (processPlasmidRow (fun _ => none) (fun _ => none)
        ⟨[(100, 10)], [], 0, 0, 0, 0, 0⟩ 100 20 "foo"
      = ⟨[(100, 10)], [], 1, 0, 0, 0, 0⟩
    ∧ (processPlasmidRow (fun _ => none) (fun _ => none)
        ⟨[(100, 10)], [], 0, 0, 0, 0, 0⟩ 100 20 "foo").parents.lookup 100
      = some 10)
    ∧ (processPlasmidRow (fun _ => none) (fun _ => none)
        ⟨[], [], 0, 0, 0, 0, 0⟩ 55 55 "bar"
      = ⟨[], [], 0, 1, 0, 0, 0⟩
    ∧ (processPlasmidRow (fun _ => none) (fun _ => none)
        ⟨[], [], 0, 0, 0, 0, 0⟩ 55 55 "bar").parents.lookup 55 = none) :=
  ⟨(read_plasmids_rejections (fun _ => none) (fun _ => none)
      ⟨[(100, 10)], [], 0, 0, 0, 0, 0⟩ 100 20 "foo").1 10 rfl,
   (read_plasmids_rejections (fun _ => none) (fun _ => none)
      ⟨[], [], 0, 0, 0, 0, 0⟩ 55 55 "bar").2 rfl rfl⟩

/-- C10: every accepted plasmid row (taxid not yet in parents, taxid ≠
parent) inserts its parents entry and, in the same iteration, a names
entry whose synthesized name starts with "Plasmid " — whichever of the
three synthesis paths (strict pattern, loose pattern, raw-taxid fallback)
produced it, for every possible behaviour of the two patterns. -/
theorem read_plasmids_accepted_name_prefix
    (pat1f pat2f : String → Option String) (st : PlasmidState)
    (tid parent : Nat) (lastRaw : String)
    (hnew : st.parents.lookup tid = none) (hne : tid ≠ parent) :
    (processPlasmidRow pat1f pat2f st tid parent lastRaw).parents.lookup tid
      = some parent
    ∧ ∃ nm,
        (processPlasmidRow pat1f pat2f st tid parent lastRaw).names.lookup
          tid = some nm
        ∧ ∃ r, nm = "Plasmid " ++ r := by
  have hsome : (st.parents.lookup tid).isSome = false := by rw [hnew]; rfl
  have hb : (tid == parent) = false := by
    simp only [beq_eq_false_iff_ne]; exact hne
  unfold processPlasmidRow
  rw [hsome, hb]
  simp only [Bool.false_eq_true, if_false]
  rcases h1 : pat1f (lastSegment lastRaw) with _ | g1
  · rcases h2 : pat2f (lastSegment lastRaw) with _ | g2
    · exact ⟨dictPut_lookup_eq _ _ _,
        "Plasmid " ++ toString tid, dictPut_lookup_eq _ _ _,
        toString tid, rfl⟩
    · exact ⟨dictPut_lookup_eq _ _ _,
        "Plasmid " ++ pyStrip g2, dictPut_lookup_eq _ _ _,
        pyStrip g2, rfl⟩
  · exact ⟨dictPut_lookup_eq _ _ _,
      "Plasmid " ++ stripChar ',' (stripChar '"' g1),
      dictPut_lookup_eq _ _ _,
      stripChar ',' (stripChar '"' g1), rfl⟩

/-- Witness for C10: an accepted row through the raw-taxid fallback path
on a concrete state. -/
theorem read_plasmids_accepted_name_prefix_witness :
    (processPlasmidRow (fun _ => none) (fun _ => none)
        ⟨[(100, 10)], [], 0, 0, 0, 0, 0⟩ 7 10 "x|y").parents.lookup 7
      = some 10
    ∧ ∃ nm,
        (processPlasmidRow (fun _ => none) (fun _ => none)
          ⟨[(100, 10)], [], 0, 0, 0, 0, 0⟩ 7 10 "x|y").names.lookup 7
          = some nm
        ∧ ∃ r, nm = "Plasmid " ++ r :=
  read_plasmids_accepted_name_prefix (fun _ => none) (fun _ => none)
    ⟨[(100, 10)], [], 0, 0, 0, 0, 0⟩ 7 10 "x|y" rfl (by decide)

/-! ## LMAT ingestion (lmat.py)

`Match` is the closed matching vocabulary (lmat.py lines 23-66); its
`lmat` classmethod decodes a raw code by enum member name, where the three
spellings of each outcome (canonical, CamelCase alias, short alias) are
all valid keys and an unknown code raises UnsupportedMatchingError
(modelled as none). Scores are modelled as rationals. -/

inductive Match where
  | NOMATCH
  | MULTIMATCH
  | DIRECTMATCH
  | NODBHITS
  | READTOOSHORT
  | LOWSCORE
deriving DecidableEq

/-- `Match.lmat`: decode LMAT codes for DB matching types. -/
def Match.lmat (s : String) : Option Match :=
  if s = "NOMATCH" ∨ s = "NoMatch" ∨ s = "NO" then some .NOMATCH
  else if s = "MULTIMATCH" ∨ s = "MultiMatch" ∨ s = "MULTI" then
    some .MULTIMATCH
  else if s = "DIRECTMATCH" ∨ s = "DirectMatch" ∨ s = "DIRECT" then
    some .DIRECTMATCH
  else if s = "NODBHITS" ∨ s = "NoDbHits" then some .NODBHITS
  else if s = "READTOOSHORT" ∨ s = "ReadTooShort" then some .READTOOSHORT
  else if s = "LOWSCORE" ∨ s = "LowScore" then some .LOWSCORE
  else none

/-- One decoded LMAT read record: final_taxid, final_score, final_match
code, sequence length (lmat.py lines 119-123). -/
structure ReadRec where
  tid : Nat
  score : Rat
  code : String
  length : Nat

/-- The mutable ingestion state of read_lmat_output: the Match histogram,
the running nucleotide total, and the per-taxon score/length
accumulators. -/
structure LmatState where
  matchings : Match → Nat
  nt_read : Nat
  all_scores : List (Nat × List Rat)
  all_length : List (Nat × List Nat)

def initLmatState : LmatState := ⟨fun _ => 0, 0, [], []⟩

/-- `matchings[match] += 1` on the Counter. -/
def bump (f : Match → Nat) (m : Match) : Match → Nat :=
  fun m' => if m' = m then f m' + 1 else f m'

/-- `if minscore is not None: if score < minscore: continue`. -/
def lowScoreSkip (minscore : Option Rat) (sc : Rat) : Bool :=
  match minscore with
  | some ms => decide (sc < ms)
  | none => false

/-- The read is accumulated into the per-taxon lists iff it passes the
score filter and its match kind is DIRECTMATCH or MULTIMATCH. -/
def accumulates (minscore : Option Rat) (m : Match) (sc : Rat) : Bool :=
  !(lowScoreSkip minscore sc)
    && decide (m ∈ [Match.DIRECTMATCH, Match.MULTIMATCH])

/-- Loop body of read_lmat_output for one read (lmat.py lines 118-136):
decode the match code (unknown code is fatal), bump the histogram and the
nucleotide total, then accumulate score and length for the read's taxon
unless the read is filtered out or carries no usable taxon signal. -/
def processRead (minscore : Option Rat) (st : LmatState) (r : ReadRec) :
    Except String LmatState :=
  match Match.lmat r.code with
  | none => .error ("Unknown LMAT DB matching " ++ r.code)
  | some m =>
    let st1 : LmatState :=
      { st with
        matchings := bump st.matchings m
        nt_read := st.nt_read + r.length }
    if lowScoreSkip minscore r.score then .ok st1
    else if m ∈ [Match.DIRECTMATCH, Match.MULTIMATCH] then
      .ok { st1 with
            all_scores := dictPut st1.all_scores r.tid
              (((st1.all_scores.lookup r.tid).getD []) ++ [r.score])
            all_length := dictPut st1.all_length r.tid
              (((st1.all_length.lookup r.tid).getD []) ++ [r.length]) }
    else .ok st1

/-- The read loop over all decoded reads of the resolved files. -/
def readLmatCore (minscore : Option Rat) (reads : List ReadRec) :
    Except String LmatState :=
  reads.foldlM (fun st r => processRead minscore st r) initLmatState

/-- `read_seqs = sum(matchings.values())`. -/
def sumHist (f : Match → Nat) : Nat :=
  f .NOMATCH + f .MULTIMATCH + f .DIRECTMATCH + f .NODBHITS
    + f .READTOOSHORT + f .LOWSCORE

/-- `filt_seqs = sum([len(scores) for scores in all_scores.values()])`. -/
def filtSeqs (st : LmatState) : Nat :=
  (st.all_scores.map (fun p => p.2.length)).sum

/-- `abundances[tid] = len(all_scores[tid])`. -/
def abundance (st : LmatState) (tid : Nat) : Nat :=
  ((st.all_scores.lookup tid).getD []).length

/-- `out_scores[tid] = mean(all_scores[tid])` (LMAT scoring). -/
def out_score (st : LmatState) (tid : Nat) : Option Rat :=
  (st.all_scores.lookup tid).map (fun l => l.sum / (l.length : Rat))

/-- read_lmat_output after the loop (lmat.py lines 140-149): fatal when no
sequence was read at all, fatal when no sequence passed the filter,
otherwise the accumulated state is returned. -/
def read_lmat_output (minscore : Option Rat) (reads : List ReadRec) :
    Except String LmatState :=
  match readLmatCore minscore reads with
  | .error e => .error e
  | .ok st =>
    if sumHist st.matchings = 0 then
      .error "Cannot read any sequence"
    else if filtSeqs st = 0 then
      .error "No sequence passed the filter!"
    else .ok st

/-- Per-taxon score accumulator view. -/
def scoresOf (st : LmatState) (t : Nat) : List Rat :=
  (st.all_scores.lookup t).getD []

/-- Per-taxon length accumulator view. -/
def lensOf (st : LmatState) (t : Nat) : List Nat :=
  (st.all_length.lookup t).getD []

/-- C1: (a) every read whose code decodes increments exactly its own
histogram entry and adds its length to the running total, and its score is
appended to its taxon's accumulator iff the read passes the score filter
and is a DIRECTMATCH or MULTIMATCH, other taxa being untouched; (b) the
concrete three-read run for taxid 42 — DirectMatch 30, DirectMatch 50,
LowScore 5, minscore 10 — succeeds with abundance 2 and mean out-score 40,
while the LowScore read still counts in the histogram (LOWSCORE entry 1,
3 reads total) and in the nucleotide total. -/
theorem read_lmat_ingestion :
    (∀ (minscore : Option Rat) (st : LmatState) (r : ReadRec) (m : Match),
      Match.lmat r.code = some m →
      ∃ st', processRead minscore st r = .ok st'
        ∧ st'.matchings m = st.matchings m + 1
        ∧ (∀ m', m' ≠ m → st'.matchings m' = st.matchings m')
        ∧ st'.nt_read = st.nt_read + r.length
        ∧ scoresOf st' r.tid = scoresOf st r.tid
            ++ (if accumulates minscore m r.score then [r.score] else [])
        ∧ lensOf st' r.tid = lensOf st r.tid
            ++ (if accumulates minscore m r.score then [r.length] else [])
        ∧ (∀ t, t ≠ r.tid →
            scoresOf st' t = scoresOf st t ∧ lensOf st' t = lensOf st t))
    ∧ (∃ st, read_lmat_output (some 10)
          [⟨42, 30, "DirectMatch", 100⟩, ⟨42, 50, "DirectMatch", 150⟩,
           ⟨42, 5, "LowScore", 80⟩] = .ok st
        ∧ abundance st 42 = 2
        ∧ out_score st 42 = some 40
        ∧ st.matchings Match.LOWSCORE = 1
        ∧ sumHist st.matchings = 3
        ∧ st.nt_read = 330) := by
  constructor
  · intro minscore st r m hm
    unfold processRead
    rw [hm]
    dsimp only
    rcases hskip : lowScoreSkip minscore r.score with _ | _
    · by_cases hmem : m ∈ [Match.DIRECTMATCH, Match.MULTIMATCH]
      · rw [if_neg Bool.false_ne_true, if_pos hmem]
        have haccT : accumulates minscore m r.score = true := by
          simp [accumulates, hskip, hmem]
        refine ⟨_, rfl, ?_, ?_, rfl, ?_, ?_, ?_⟩
        · simp [bump]
        · intro m' hm'; simp [bump, hm']
        · unfold scoresOf
          rw [haccT, if_pos rfl, dictPut_lookup_eq]
          rfl
        · unfold lensOf
          rw [haccT, if_pos rfl, dictPut_lookup_eq]
          rfl
        · intro t ht
          unfold scoresOf lensOf
          rw [dictPut_lookup_ne _ _ _ _ ht, dictPut_lookup_ne _ _ _ _ ht]
          exact ⟨rfl, rfl⟩
      · rw [if_neg Bool.false_ne_true, if_neg hmem]
        have haccF : accumulates minscore m r.score = false := by
          simp [accumulates, hskip, hmem]
        refine ⟨_, rfl, ?_, ?_, rfl, ?_, ?_, ?_⟩
        · simp [bump]
        · intro m' hm'; simp [bump, hm']
        · rw [haccF]; simp [scoresOf]
        · rw [haccF]; simp [lensOf]
        · intro t _; exact ⟨rfl, rfl⟩
    · rw [if_pos rfl]
      have haccF : accumulates minscore m r.score = false := by
        simp [accumulates, hskip]
      refine ⟨_, rfl, ?_, ?_, rfl, ?_, ?_, ?_⟩
      · simp [bump]
      · intro m' hm'; simp [bump, hm']
      · rw [haccF]; simp [scoresOf]
      · rw [haccF]; simp [lensOf]
      · intro t _; exact ⟨rfl, rfl⟩
  · refine ⟨⟨bump (bump (bump (fun _ => 0) Match.DIRECTMATCH)
        Match.DIRECTMATCH) Match.LOWSCORE, 330,
        [(42, [30, 50])], [(42, [100, 150])]⟩, ?_, ?_, ?_, ?_, ?_, ?_⟩
    · rfl
    · rfl
    · show some (((30 : ℚ) + (50 + 0)) / (((2 : Nat) : ℚ))) = some 40
      norm_num
    · rfl
    · rfl
    · rfl

/-- Witness for C1 at one concrete decoded read. -/
theorem read_lmat_ingestion_witness :
    Match.lmat "DirectMatch" = some Match.DIRECTMATCH
    ∧ ∃ st', processRead (some 10) initLmatState
          ⟨42, 30, "DirectMatch", 100⟩ = .ok st'
        ∧ st'.matchings Match.DIRECTMATCH
            = initLmatState.matchings Match.DIRECTMATCH + 1
        ∧ (∀ m', m' ≠ Match.DIRECTMATCH →
            st'.matchings m' = initLmatState.matchings m')
        ∧ st'.nt_read = initLmatState.nt_read + 100
        ∧ scoresOf st' 42 = scoresOf initLmatState 42
            ++ (if accumulates (some 10) Match.DIRECTMATCH 30 then [30]
                else [])
        ∧ lensOf st' 42 = lensOf initLmatState 42
            ++ (if accumulates (some 10) Match.DIRECTMATCH 30 then [100]
                else [])
        ∧ (∀ t, t ≠ 42 →
            scoresOf st' t = scoresOf initLmatState t
            ∧ lensOf st' t = lensOf initLmatState t) :=
  ⟨rfl, read_lmat_ingestion.1 (some 10) initLmatState
    ⟨42, 30, "DirectMatch", 100⟩ Match.DIRECTMATCH rfl⟩

/-- C7: an ingestion run over zero decoded reads fails with the "no
reads" fatal error (never an empty success), and any successful run has a
nonzero read count and a nonzero count of filter-surviving reads — in
particular zero reads surviving the filter is also fatal. -/
theorem read_lmat_zero_reads_fatal :
    (∀ minscore, read_lmat_output minscore [] =
        .error "Cannot read any sequence")
    ∧ (∀ minscore reads st, read_lmat_output minscore reads = .ok st →
        sumHist st.matchings ≠ 0 ∧ filtSeqs st ≠ 0) := by
  constructor
  · intro minscore; rfl
  · intro minscore reads st h
    unfold read_lmat_output at h
    rcases hc : readLmatCore minscore reads with _ | st0
    · rw [hc] at h; exact absurd h (by simp)
    · rw [hc] at h
      dsimp only at h
      by_cases h1 : sumHist st0.matchings = 0
      · rw [if_pos h1] at h; exact absurd h (by simp)
      · rw [if_neg h1] at h
        by_cases h2 : filtSeqs st0 = 0
        · rw [if_pos h2] at h; exact absurd h (by simp)
        · rw [if_neg h2] at h
          simp only [Except.ok.injEq] at h
          rw [← h]
          exact ⟨h1, h2⟩

/-- Witness for C7: the zero-read case errors, and a concrete successful
run has nonzero counts. -/
theorem read_lmat_zero_reads_fatal_witness :
    read_lmat_output (some 10) [] = .error "Cannot read any sequence"
    ∧ ∃ st, read_lmat_output (some 10) [⟨42, 30, "DirectMatch", 100⟩]
        = .ok st
      ∧ sumHist st.matchings ≠ 0 ∧ filtSeqs st ≠ 0 := by
  refine ⟨read_lmat_zero_reads_fatal.1 (some 10), _, rfl, ?_⟩
  exact read_lmat_zero_reads_fatal.2 (some 10)
    [⟨42, 30, "DirectMatch", 100⟩] _ rfl

/-! ## Taxonomy.get_ancestors (taxonomy.py lines 191-206)

```python
ancestors: Set[TaxId] = set(leaves)
orphans: Set[TaxId] = set()
for leaf in leaves:
    tid: TaxId = leaf
    while tid != ROOT:
        try:
            tid = self.parents[tid]
        except KeyError:
            orphans.add(tid)
            break
        else:
            ancestors.add(tid)
return ancestors, orphans
```
The unbounded while loop is modelled with an explicit fuel parameter
(none = fuel exhausted, which cannot happen when the parent relation is
acyclic and the fuel exceeds the walk height, as witnessed by a strictly
decreasing height function — the standard certificate of acyclicity for a
finite functional parent relation). -/

/-- The inner while loop: walk up the parents dict from tid, accumulating
every visited id into the (shared) ancestors list, until ROOT or a missing
parent entry (added to the orphans list). -/
def walkLoop (ps : List (Nat × Nat)) :
    Nat → Nat → List Nat → List Nat → Option (List Nat × List Nat)
  | 0, _, _, _ => none
  | fuel + 1, tid, anc, orph =>
    if tid = ROOT then some (anc, orph)
    else
      match ps.lookup tid with
      | none => some (anc, tid :: orph)
      | some p => walkLoop ps fuel p (p :: anc) orph

/-- `Taxonomy.get_ancestors`: ancestors start as the leaves themselves,
then each leaf's walk runs over the shared accumulators. -/
def get_ancestors (ps : List (Nat × Nat)) (fuel : Nat)
    (leaves : List Nat) : Option (List Nat × List Nat) :=
  leaves.foldlM (fun st leaf => walkLoop ps fuel leaf st.1 st.2)
    (leaves, [])

/-- x lies on the upward walk path of t through ps (t itself included; the
path does not continue past ROOT). -/
inductive UpPath (ps : List (Nat × Nat)) : Nat → Nat → Prop where
  | refl (t : Nat) : UpPath ps t t
  | step (t p x : Nat) : t ≠ ROOT → ps.lookup t = some p →
      UpPath ps p x → UpPath ps t x

/-- x is a proper ancestor on t's walk (at least one parent step taken). -/
def StrictFrom (ps : List (Nat × Nat)) (t x : Nat) : Prop :=
  ∃ p, t ≠ ROOT ∧ ps.lookup t = some p ∧ UpPath ps p x

/-- x is the break point of t's walk: on the path, not ROOT, and without a
parents entry. -/
def BreakFrom (ps : List (Nat × Nat)) (t x : Nat) : Prop :=
  UpPath ps t x ∧ x ≠ ROOT ∧ ps.lookup x = none

theorem upPath_iff (ps : List (Nat × Nat)) (t x : Nat) :
    UpPath ps t x ↔ x = t ∨ StrictFrom ps t x := by
  constructor
  · intro h
    cases h with
    | refl _ => exact Or.inl rfl
    | step _ p _ hne hl hp => exact Or.inr ⟨p, hne, hl, hp⟩
  · rintro (rfl | ⟨p, hne, hl, hp⟩)
    · exact UpPath.refl x
    · exact UpPath.step t p x hne hl hp

theorem walkLoop_mem (ps : List (Nat × Nat)) :
    ∀ (fuel tid : Nat) (anc orph anc' orph' : List Nat),
    walkLoop ps fuel tid anc orph = some (anc', orph') →
    (∀ x, x ∈ anc' ↔ x ∈ anc ∨ StrictFrom ps tid x)
    ∧ (∀ x, x ∈ orph' ↔ x ∈ orph ∨ BreakFrom ps tid x) := by
  intro fuel
  induction fuel with
  | zero =>
    intro tid anc orph anc' orph' h
    exact absurd h (by simp [walkLoop])
  | succ n ih =>
    intro tid anc orph anc' orph' h
    unfold walkLoop at h
    by_cases hroot : tid = ROOT
    · rw [if_pos hroot] at h
      simp only [Option.some.injEq, Prod.mk.injEq] at h
      obtain ⟨h1, h2⟩ := h
      subst h1; subst h2
      constructor
      · intro x
        constructor
        · exact Or.inl
        · rintro (hx | ⟨p, hne, _, _⟩)
          · exact hx
          · exact absurd hroot hne
      · intro x
        constructor
        · exact Or.inl
        · rintro (hx | ⟨hup, hxr, hxl⟩)
          · exact hx
          · cases hup with
            | refl _ => exact absurd hroot hxr
            | step _ q _ hne hlq hq => exact absurd hroot hne
    · rw [if_neg hroot] at h
      rcases hl : ps.lookup tid with _ | p
      · rw [hl] at h
        simp only [Option.some.injEq, Prod.mk.injEq] at h
        obtain ⟨h1, h2⟩ := h
        subst h1; subst h2
        constructor
        · intro x
          constructor
          · exact Or.inl
          · rintro (hx | ⟨p, hne, hlp, _⟩)
            · exact hx
            · rw [hl] at hlp; exact absurd hlp (by simp)
        · intro x
          constructor
          · intro hx
            rcases List.mem_cons.mp hx with rfl | hx'
            · exact Or.inr ⟨UpPath.refl x, hroot, hl⟩
            · exact Or.inl hx'
          · rintro (hx | ⟨hup, hxr, hxl⟩)
            · exact List.mem_cons_of_mem _ hx
            · cases hup with
              | refl _ => exact List.mem_cons_self _ _
              | step _ q _ hne hlq hq =>
                rw [hl] at hlq; exact absurd hlq (by simp)
      · rw [hl] at h
        obtain ⟨ha, ho⟩ := ih p (p :: anc) orph anc' orph' h
        constructor
        · intro x
          rw [ha x]
          constructor
          · rintro (hx | hs)
            · rcases List.mem_cons.mp hx with rfl | hx'
              · exact Or.inr ⟨x, hroot, hl, UpPath.refl x⟩
              · exact Or.inl hx'
            · exact Or.inr ⟨p, hroot, hl,
                (upPath_iff ps p x).mpr (Or.inr hs)⟩
          · rintro (hx | ⟨q, hne, hlq, hq⟩)
            · exact Or.inl (List.mem_cons_of_mem _ hx)
            · rw [hl] at hlq
              injection hlq with hpq
              subst hpq
              rcases (upPath_iff ps p x).mp hq with rfl | hs
              · exact Or.inl (List.mem_cons_self x anc)
              · exact Or.inr hs
        · intro x
          rw [ho x]
          constructor
          · rintro (hx | ⟨hup, hxr, hxl⟩)
            · exact Or.inl hx
            · exact Or.inr ⟨UpPath.step tid p x hroot hl hup, hxr, hxl⟩
          · rintro (hx | ⟨hup, hxr, hxl⟩)
            · exact Or.inl hx
            · cases hup with
              | refl _ => rw [hl] at hxl; exact absurd hxl (by simp)
              | step _ q _ hne hlq hq =>
                rw [hl] at hlq
                injection hlq with hpq
                subst hpq
                exact Or.inr ⟨hq, hxr, hxl⟩

theorem walkLoop_total (ps : List (Nat × Nat)) (h : Nat → Nat)
    (hdec : ∀ t p, ps.lookup t = some p → h p < h t) :
    ∀ (fuel tid : Nat) (anc orph : List Nat), h tid < fuel →
      ∃ res, walkLoop ps fuel tid anc orph = some res := by
  intro fuel
  induction fuel with
  | zero => intro tid anc orph hf; exact absurd hf (Nat.not_lt_zero _)
  | succ n ih =>
    intro tid anc orph hf
    unfold walkLoop
    by_cases hroot : tid = ROOT
    · rw [if_pos hroot]; exact ⟨_, rfl⟩
    · rw [if_neg hroot]
      rcases hl : ps.lookup tid with _ | p
      · exact ⟨_, rfl⟩
      · exact ih p (p :: anc) orph (by have := hdec tid p hl; omega)

theorem lookup_mem (l : List (Nat × Nat)) (k v : Nat)
    (h : l.lookup k = some v) : (k, v) ∈ l := by
  induction l with
  | nil => simp [List.lookup] at h
  | cons hd t ih =>
    obtain ⟨a, b⟩ := hd
    by_cases hk : k = a
    · subst hk
      have hb : (k == k) = true := by simp
      simp only [List.lookup, hb, Option.some.injEq] at h
      subst h
      exact List.mem_cons_self _ _
    · have hb : (k == a) = false := by
        simp only [beq_eq_false_iff_ne]; exact hk
      simp only [List.lookup, hb] at h
      exact List.mem_cons_of_mem _ (ih h)

theorem fold_mem (ps : List (Nat × Nat)) (fuel : Nat) :
    ∀ (pending : List Nat) (anc orph anc' orph' : List Nat),
    (pending.foldlM (fun st leaf => walkLoop ps fuel leaf st.1 st.2)
        (anc, orph)) = some (anc', orph') →
    (∀ x, x ∈ anc' ↔ x ∈ anc ∨ ∃ l ∈ pending, StrictFrom ps l x)
    ∧ (∀ x, x ∈ orph' ↔ x ∈ orph ∨ ∃ l ∈ pending, BreakFrom ps l x) := by
  intro pending
  induction pending with
  | nil =>
    intro anc orph anc' orph' h
    simp only [List.foldlM_nil, pure, Option.some.injEq,
      Prod.mk.injEq] at h
    obtain ⟨h1, h2⟩ := h
    subst h1; subst h2
    constructor
    · intro x; simp
    · intro x; simp
  | cons l rest ih =>
    intro anc orph anc' orph' h
    rw [List.foldlM_cons] at h
    rcases hbind : walkLoop ps fuel l (anc, orph).1 (anc, orph).2
      with _ | st1
    · rw [hbind] at h
      exact absurd h (by simp)
    · rw [hbind] at h
      simp only [Option.bind_eq_bind, Option.some_bind] at h
      obtain ⟨anc1, orph1⟩ := st1
      obtain ⟨hw1, hw2⟩ := walkLoop_mem ps fuel l anc orph anc1 orph1 hbind
      obtain ⟨hr1, hr2⟩ := ih anc1 orph1 anc' orph' h
      constructor
      · intro x
        rw [hr1 x, hw1 x]
        simp only [List.mem_cons]
        constructor
        · rintro ((hx | hs) | ⟨l', hl', hs⟩)
          · exact Or.inl hx
          · exact Or.inr ⟨l, Or.inl rfl, hs⟩
          · exact Or.inr ⟨l', Or.inr hl', hs⟩
        · rintro (hx | ⟨l', rfl | hl', hs⟩)
          · exact Or.inl (Or.inl hx)
          · exact Or.inl (Or.inr hs)
          · exact Or.inr ⟨l', hl', hs⟩
      · intro x
        rw [hr2 x, hw2 x]
        simp only [List.mem_cons]
        constructor
        · rintro ((hx | hs) | ⟨l', hl', hs⟩)
          · exact Or.inl hx
          · exact Or.inr ⟨l, Or.inl rfl, hs⟩
          · exact Or.inr ⟨l', Or.inr hl', hs⟩
        · rintro (hx | ⟨l', rfl | hl', hs⟩)
          · exact Or.inl (Or.inl hx)
          · exact Or.inl (Or.inr hs)
          · exact Or.inr ⟨l', hl', hs⟩

theorem fold_total (ps : List (Nat × Nat)) (h : Nat → Nat)
    (hdec : ∀ t p, ps.lookup t = some p → h p < h t) (fuel : Nat) :
    ∀ (pending : List Nat) (anc orph : List Nat),
    (∀ l ∈ pending, h l < fuel) →
    ∃ res, (pending.foldlM (fun st leaf => walkLoop ps fuel leaf st.1 st.2)
        (anc, orph)) = some res := by
  intro pending
  induction pending with
  | nil =>
    intro anc orph _
    exact ⟨(anc, orph), by simp [List.foldlM_nil, pure]⟩
  | cons l rest ih =>
    intro anc orph hf
    obtain ⟨st1, h1⟩ := walkLoop_total ps h hdec fuel l anc orph
      (hf l (List.mem_cons_self l rest))
    obtain ⟨anc1, orph1⟩ := st1
    obtain ⟨res, h2⟩ := ih anc1 orph1
      (fun l' hl' => hf l' (List.mem_cons_of_mem l hl'))
    refine ⟨res, ?_⟩
    rw [List.foldlM_cons]
    show (walkLoop ps fuel l (anc, orph).1 (anc, orph).2).bind _ = some res
    rw [h1]
    simpa using h2

/-- C3: for every acyclic ParentMap — acyclicity certified by a height
function h strictly decreasing along parent edges — and every leaves list,
get_ancestors (with enough fuel for the bounded walks) succeeds without
error, its closure contains every leaf and is exactly the union of the
leaves' upward paths through the parents dict up to ROOT inclusive, and
its orphan set is exactly the set of walk break points: ids on some leaf's
path that are not ROOT and have no parents entry (the walk for such a leaf
stops there). -/
theorem get_ancestors_closure (ps : List (Nat × Nat)) (leaves : List Nat)
    (fuel : Nat) (h : Nat → Nat)
    (hdec : ∀ t p, ps.lookup t = some p → h p < h t)
    (hfuel : ∀ l ∈ leaves, h l < fuel) :
    ∃ anc orph, get_ancestors ps fuel leaves = some (anc, orph)
      ∧ (∀ l ∈ leaves, l ∈ anc)
      ∧ (∀ x, x ∈ anc ↔ ∃ l ∈ leaves, UpPath ps l x)
      ∧ (∀ x, x ∈ orph ↔ ∃ l ∈ leaves, UpPath ps l x ∧ x ≠ ROOT
            ∧ ps.lookup x = none) := by
  obtain ⟨res, hres⟩ := fold_total ps h hdec fuel leaves leaves [] hfuel
  obtain ⟨anc, orph⟩ := res
  obtain ⟨hm1, hm2⟩ := fold_mem ps fuel leaves leaves [] anc orph hres
  refine ⟨anc, orph, hres, ?_, ?_, ?_⟩
  · intro l hl
    exact (hm1 l).mpr (Or.inl hl)
  · intro x
    rw [hm1 x]
    constructor
    · rintro (hx | ⟨l, hl, ⟨p, hne, hlk, hp⟩⟩)
      · exact ⟨x, hx, UpPath.refl x⟩
      · exact ⟨l, hl, UpPath.step l p x hne hlk hp⟩
    · rintro ⟨l, hl, hup⟩
      rcases (upPath_iff ps l x).mp hup with rfl | hs
      · exact Or.inl hl
      · exact Or.inr ⟨l, hl, hs⟩
  · intro x
    rw [hm2 x]
    simp only [List.not_mem_nil, false_or]
    rfl

/-- Witness for C3 at the concrete parents dict {2 ↦ 1, 3 ↦ 2, 5 ↦ 4}
(ROOT = 1) with leaves [3, 5], the identity height function and fuel
10: leaf 3 walks to ROOT, leaf 5 breaks at the orphan 4. -/
theorem get_ancestors_closure_witness :
    ∃ anc orph,
      get_ancestors [(2, 1), (3, 2), (5, 4)] 10 [3, 5] = some (anc, orph)
      ∧ (∀ l ∈ [3, 5], l ∈ anc)
      ∧ (∀ x, x ∈ anc
          ↔ ∃ l ∈ [3, 5], UpPath [(2, 1), (3, 2), (5, 4)] l x)
      ∧ (∀ x, x ∈ orph
          ↔ ∃ l ∈ [3, 5], UpPath [(2, 1), (3, 2), (5, 4)] l x ∧ x ≠ ROOT
              ∧ ([(2, 1), (3, 2), (5, 4)] : List (Nat × Nat)).lookup x
                  = none) := by
  apply get_ancestors_closure [(2, 1), (3, 2), (5, 4)] [3, 5] 10
    (fun t => t)
  · intro t p hl
    have hm : (t, p) ∈ [(2, 1), (3, 2), (5, 4)] := lookup_mem _ _ _ hl
    simp only [List.mem_cons, List.not_mem_nil, or_false,
      Prod.mk.injEq] at hm
    rcases hm with ⟨ht, hp⟩ | ⟨ht, hp⟩ | ⟨ht, hp⟩ <;> omega
  · intro l hl
    simp only [List.mem_cons, List.not_mem_nil, or_false] at hl
    rcases hl with rfl | rfl <;> omega

/-- The walkLoop invariant behind C9: whenever the walk completes, if the
current tid is already listed in the ancestors accumulator and the orphans
accumulated so far are listed too, the same holds at the end (and the
ancestors accumulator only grows). -/
theorem walkLoop_inv (ps : List (Nat × Nat)) :
    ∀ (fuel tid : Nat) (anc orph anc' orph' : List Nat),
    walkLoop ps fuel tid anc orph = some (anc', orph') →
    tid ∈ anc → (∀ x ∈ orph, x ∈ anc) →
    (∀ x ∈ orph', x ∈ anc') ∧ (∀ x ∈ anc, x ∈ anc') := by
  intro fuel
  induction fuel with
  | zero =>
    intro tid anc orph anc' orph' h _ _
    exact absurd h (by simp [walkLoop])
  | succ n ih =>
    intro tid anc orph anc' orph' h htid horph
    unfold walkLoop at h
    by_cases hroot : tid = ROOT
    · rw [if_pos hroot] at h
      simp only [Option.some.injEq, Prod.mk.injEq] at h
      obtain ⟨h1, h2⟩ := h
      subst h1; subst h2
      exact ⟨horph, fun x hx => hx⟩
    · rw [if_neg hroot] at h
      rcases hl : ps.lookup tid with _ | p
      · rw [hl] at h
        simp only [Option.some.injEq, Prod.mk.injEq] at h
        obtain ⟨h1, h2⟩ := h
        subst h1; subst h2
        refine ⟨?_, fun x hx => hx⟩
        intro x hx
        rcases List.mem_cons.mp hx with rfl | hx'
        · exact htid
        · exact horph x hx'
      · rw [hl] at h
        obtain ⟨hsub, hgrow⟩ := ih p (p :: anc) orph anc' orph' h
          (List.mem_cons_self p anc)
          (fun x hx => List.mem_cons_of_mem p (horph x hx))
        exact ⟨hsub, fun x hx => hgrow x (List.mem_cons_of_mem p hx)⟩

theorem fold_inv (ps : List (Nat × Nat)) (fuel : Nat) :
    ∀ (pending : List Nat) (anc orph anc' orph' : List Nat),
    (pending.foldlM (fun st leaf => walkLoop ps fuel leaf st.1 st.2)
        (anc, orph)) = some (anc', orph') →
    (∀ l ∈ pending, l ∈ anc) → (∀ x ∈ orph, x ∈ anc) →
    (∀ x ∈ orph', x ∈ anc') ∧ (∀ x ∈ anc, x ∈ anc') := by
  intro pending
  induction pending with
  | nil =>
    intro anc orph anc' orph' h _ horph
    simp only [List.foldlM_nil, pure, Option.some.injEq,
      Prod.mk.injEq] at h
    obtain ⟨h1, h2⟩ := h
    subst h1; subst h2
    exact ⟨horph, fun x hx => hx⟩
  | cons l rest ih =>
    intro anc orph anc' orph' h hpend horph
    rw [List.foldlM_cons] at h
    rcases hbind : walkLoop ps fuel l (anc, orph).1 (anc, orph).2
      with _ | st1
    · rw [hbind] at h
      exact absurd h (by simp)
    · rw [hbind] at h
      simp only [Option.bind_eq_bind, Option.some_bind] at h
      obtain ⟨anc1, orph1⟩ := st1
      obtain ⟨hw1, hw2⟩ := walkLoop_inv ps fuel l anc orph anc1 orph1
        hbind (hpend l (List.mem_cons_self l rest)) horph
      obtain ⟨hr1, hr2⟩ := ih anc1 orph1 anc' orph' h
        (fun l' hl' => hw2 l' (hpend l' (List.mem_cons_of_mem l hl')))
        hw1
      exact ⟨hr1, fun x hx => hr2 x (hw2 x hx)⟩

/-- C9: whenever get_ancestors completes, every orphan is also in the
returned closure — the break-point id was either a starting leaf or was
added to the ancestors accumulator as a parent before its own parent
lookup failed. No acyclicity assumption is needed. -/
theorem get_ancestors_orphans_subset (ps : List (Nat × Nat))
    (fuel : Nat) (leaves anc orph : List Nat)
    (h : get_ancestors ps fuel leaves = some (anc, orph)) :
    ∀ x ∈ orph, x ∈ anc := by
  have := fold_inv ps fuel leaves leaves [] anc orph h
    (fun l hl => hl) (by intro x hx; exact absurd hx (List.not_mem_nil x))
  exact this.1

/-- Witness for C9 at the concrete run of the C3 witness instance: the
orphan 4 is contained in the closure [4, 1, 2, 3, 5]. -/
theorem get_ancestors_orphans_subset_witness :
    get_ancestors [(2, 1), (3, 2), (5, 4)] 10 [3, 5]
      = some ([4, 1, 2, 3, 5], [4])
    ∧ (4 : Nat) ∈ [4, 1, 2, 3, 5] :=
  ⟨rfl, get_ancestors_orphans_subset [(2, 1), (3, 2), (5, 4)] 10 [3, 5]
    [4, 1, 2, 3, 5] [4] rfl 4 (by decide)⟩

end Recentrifuge
